import Mathlib

/-!
Verification of the debounced, request-coalescing validation dispatcher of
cordova-plugin-purchase (src/js/validator.js).

The JavaScript module keeps a process-wide queue of validation requests and a
single pending timer.  Enqueuing a request appends it to the queue and restarts
a 1500 ms timer; when the timer fires, the queue is captured and reset, the
captured requests are grouped by product id (last-write-wins on the product
snapshot, all callbacks accumulated), each product is normalized (the
applicationUsername key of additionalData is resolved or deleted), and one
outbound POST per product id is issued; the transport outcome is fanned out to
every callback of the batch.

The embedding below translates that code into pure Lean functions: the shared
mutable state (validationRequests, timeout) becomes an explicit SchedState, the
timer becomes an absolute deadline in milliseconds, the HTTP transport becomes
an injected function from the posted body to a transport result, and JavaScript
truthiness of the relevant values (absent / empty-string applicationUsername,
absent additionalData, falsy store.validator) is modelled with Option and
explicit falsiness predicates.
-/

/-- The additionalData mapping of a product.  The dispatcher only reads and
writes its applicationUsername key; all other keys are carried opaquely in
rest.  applicationUsername = none models the key being absent (or holding
undefined); some s models the key holding string s. -/
structure AdditionalData where
  applicationUsername : Option String
  rest : List (String × String)
deriving Repr, DecidableEq, Inhabited

/-- A product record.  The dispatcher reads id and additionalData;
additionalData = none models a null/undefined additionalData field.  The
transaction field carries the store-dependent sub-record opaquely. -/
structure Product where
  id : String
  additionalData : Option AdditionalData
  transaction : String
deriving Repr, DecidableEq, Inhabited

/-- A queued validation request: the product and the caller's callback,
identified opaquely by a number. -/
structure Request where
  product : Product
  callback : Nat
deriving Repr, DecidableEq, Inhabited

/-- One entry of the byProduct grouping: the product snapshot (last-write-wins)
and all callbacks registered for that product id, in arrival order. -/
structure Batch where
  product : Product
  callbacks : List Nat
deriving Repr, DecidableEq, Inhabited

/-- The process-wide mutable state of the module: the validationRequests queue
and the timeout handle.  timeout = some d models a pending timer that fires at
absolute time d (milliseconds); none models no pending timer. -/
structure SchedState where
  validationRequests : List Request
  timeout : Option Nat
deriving Repr, DecidableEq, Inhabited

/-- Result of the injected HTTP transport for one outbound call: either a
transport-level success carrying the parsed body's ok and data fields (none
models a missing field), or a transport failure with a status and message. -/
inductive TransportResult where
  | success (ok : Option Bool) (data : Option String)
  | failure (status : Nat) (message : String)
deriving Repr, DecidableEq, Inhabited

/-- The outcome tuple delivered to a callback by the dispatcher.
response ok data models the invocation callback(data.ok, data.data) on the
success path (ok = none when the body's ok field is missing, i.e. undefined);
transportError m models the invocation callback(false, m) on the failure
path. -/
inductive Outcome where
  | response (ok : Option Bool) (data : Option String)
  | transportError (message : String)
deriving Repr, DecidableEq, Inhabited

/-- The first argument a callback receives under an outcome. -/
def Outcome.firstArg : Outcome → Option Bool
  | .response ok _ => ok
  | .transportError _ => some false

/-- JavaScript truthiness of a callback's first argument: undefined (none) is
falsy, a boolean is its own truth value. -/
def argTruthy : Option Bool → Bool
  | none => false
  | some b => b

/-- One outbound HTTP call as issued by store.utils.ajax. -/
structure Call where
  url : String
  method : String
  data : Product
deriving Repr, DecidableEq, Inhabited

/-- JavaScript falsiness of the applicationUsername value: the key being
absent/undefined (none) and the empty string are falsy. -/
def usernameFalsy : Option String → Bool
  | none => true
  | some s => s == ""

/-- First step of the normalization (validator.js lines 151-153): if the
product has no additionalData, assign a fresh empty mapping to it. -/
def ensureAdditionalData (p : Product) : Product :=
  match p.additionalData with
  | none => { p with additionalData := some { applicationUsername := none, rest := [] } }
  | some _ => p

/-- The applicationUsername normalization performed on each batch's product
before the outbound call (validator.js lines 150-160): create additionalData
as an empty mapping if absent; if applicationUsername is falsy, assign the
resolver's result (store.getApplicationUsername); if it is still falsy, delete
the key. -/
def normalizeProduct (resolver : Product → Option String) (p : Product) : Product :=
  let p1 := ensureAdditionalData p
  let ad := p1.additionalData.getD default
  let p2 := if usernameFalsy ad.applicationUsername then
      { p1 with additionalData := some { ad with applicationUsername := resolver p1 } }
    else p1
  let ad2 := p2.additionalData.getD default
  if usernameFalsy ad2.applicationUsername then
    { p2 with additionalData := some { ad2 with applicationUsername := none } }
  else p2

/-- Lookup of a key in the byProduct object, modelled as an ordered
association list. -/
def findKey (k : String) : List (String × Batch) → Option Batch
  | [] => none
  | e :: es => if e.1 = k then some e.2 else findKey k es

/-- Processing of one request by the grouping loop (validator.js lines
130-143): for an id already present, push the callback and overwrite the
stored product with this request's product; for a new id, create a batch with
this product and a single-element callback list. -/
def insertRequest (acc : List (String × Batch)) (r : Request) : List (String × Batch) :=
  match findKey r.product.id acc with
  | some _ => acc.map fun e =>
      if e.1 = r.product.id then
        (e.1, { product := r.product, callbacks := e.2.callbacks ++ [r.callback] })
      else e
  | none => acc ++ [(r.product.id, { product := r.product, callbacks := [r.callback] })]

/-- The byProduct grouping of a captured request list (requests.forEach over
the merge loop). -/
def groupRequests (rs : List Request) : List (String × Batch) :=
  rs.foldl insertRequest []

/-- Effect of one request on the batch stored under its id (specification
device for the grouping loop). -/
def pushReq (o : Option Batch) (r : Request) : Batch :=
  match o with
  | some b => { product := r.product, callbacks := b.callbacks ++ [r.callback] }
  | none => { product := r.product, callbacks := [r.callback] }

/-- Folding a request list into an optional batch (specification device:
the grouping of all requests sharing one id). -/
def accumBatch (o : Option Batch) (fs : List Request) : Option Batch :=
  fs.foldl (fun o r => some (pushReq o r)) o

/-- Dispatch of one batch (validator.js lines 146-182): normalize the product,
issue the POST, and fan the transport outcome out to every callback of the
batch.  Returns the outbound call and the (callback, outcome) invocations. -/
def dispatchBatch (resolver : Product → Option String) (url : String)
    (transport : Product → TransportResult) (b : Batch) :
    Call × List (Nat × Outcome) :=
  let p := normalizeProduct resolver b.product
  let outcome := match transport p with
    | .success ok data => Outcome.response ok data
    | .failure status message =>
        Outcome.transportError ("Error " ++ toString status ++ ": " ++ message)
  (⟨url, "POST", p⟩, b.callbacks.map fun cb => (cb, outcome))

/-- The capture-and-reset prologue of runValidation (validator.js lines
124-126): the timer handle is set to null and the live queue is swapped for an
empty one; the captured requests are returned alongside the new state. -/
def captureQueue (s : SchedState) : List Request × SchedState :=
  (s.validationRequests, { validationRequests := [], timeout := none })

/-- The full runValidation body: capture and reset the queue, group the
captured requests by product id, and dispatch one outbound call per batch. -/
def runValidation (resolver : Product → Option String) (url : String)
    (transport : Product → TransportResult) (s : SchedState) :
    SchedState × List (Call × List (Nat × Outcome)) :=
  let captured := (captureQueue s).1
  ((captureQueue s).2, (groupRequests captured).map fun g => dispatchBatch resolver url transport g.2)

/-- The outbound calls issued by a runValidation firing. -/
def rvCalls (res : SchedState × List (Call × List (Nat × Outcome))) : List Call :=
  res.2.map (·.1)

/-- All callback invocations of a runValidation firing, flattened across
batches. -/
def rvOutcomes (res : SchedState × List (Call × List (Nat × Outcome))) :
    List (Nat × Outcome) :=
  (res.2.map (·.2)).flatten

/-- scheduleValidation (validator.js lines 185-190) at absolute time now: if a
timer is pending it is cancelled (its deadline is discarded), and a new timer
with deadline now + 1500 is started. -/
def scheduleValidation (now : Nat) (s : SchedState) : SchedState :=
  { s with timeout := some (now + 1500) }

/-- The enqueue path of store._validator for a string validator (validator.js
lines 213-219): push the request onto the queue, then scheduleValidation. -/
def enqueue (now : Nat) (r : Request) (s : SchedState) : SchedState :=
  scheduleValidation now { s with validationRequests := s.validationRequests ++ [r] }

/-- A burst of enqueues, each tagged with its absolute arrival time. -/
def enqueueBurst (evs : List (Nat × Request)) (s : SchedState) : SchedState :=
  evs.foldl (fun s e => enqueue e.1 e.2 s) s

/-- Whether the pending timer fires by absolute time t: a timer must be
pending and its deadline reached. -/
def canFire (t : Nat) (s : SchedState) : Bool :=
  match s.timeout with
  | some d => d ≤ t
  | none => false

/-- The store.validator configuration: absent (null), an endpoint locator
(url), or a callback-style function identified opaquely by a number. -/
inductive StoreValidator where
  | noValidator
  | url (address : String)
  | fn (id : Nat)
deriving Repr, DecidableEq, Inhabited

/-- JavaScript falsiness of store.validator as tested on line 201: null is
falsy, and so is the empty string. -/
def StoreValidator.falsy : StoreValidator → Bool
  | .noValidator => true
  | .url a => a == ""
  | .fn _ => false

/-- Whether typeof store.validator is a string (line 213). -/
def StoreValidator.isString : StoreValidator → Bool
  | .url _ => true
  | _ => false

/-- The parts of the store configuration read by store._validator: the
validator and whether a store._prepareForValidation pre-step is configured. -/
structure StoreConfig where
  validator : StoreValidator
  hasPrepare : Bool
deriving Repr, DecidableEq, Inhabited

/-- The observable effects of one store._validator call chain.
callbackCalls are the synchronous callback(ok, product) invocations made
directly by the entry point (the bypass path); prepareRuns counts how many
times the pre-validation step ran; delegations lists the function validators
invoked as store.validator(product, callback); depth counts the nested
store._validator activations; state is the scheduler state after the call. -/
structure EntryResult where
  callbackCalls : List (Bool × Product)
  prepareRuns : Nat
  delegations : List Nat
  depth : Nat
  state : SchedState
deriving Repr, DecidableEq, Inhabited

/-- store._validator (validator.js lines 200-223).  If store.validator is
falsy, invoke callback(true, product) synchronously and return.  Else if a
pre-validation step is configured and isPrepared is not true, run the
pre-step and recurse with isPrepared = true.  Else if the validator is a
string, enqueue the request and schedule the debounce timer.  Else call the
function validator directly. -/
def store._validator (cfg : StoreConfig) (now : Nat) (p : Product) (cb : Nat)
    (isPrepared : Bool) (s : SchedState) : EntryResult :=
  if cfg.validator.falsy then
    { callbackCalls := [(true, p)], prepareRuns := 0, delegations := [], depth := 1, state := s }
  else if cfg.hasPrepare && !isPrepared then
    let r := store._validator cfg now p cb true s
    { r with prepareRuns := r.prepareRuns + 1, depth := r.depth + 1 }
  else if cfg.validator.isString then
    { callbackCalls := [], prepareRuns := 0, delegations := [], depth := 1,
      state := enqueue now ⟨p, cb⟩ s }
  else
    { callbackCalls := [],
      prepareRuns := 0,
      delegations := match cfg.validator with
        | .fn i => [i]
        | _ => [],
      depth := 1,
      state := s }
termination_by (if isPrepared then 0 else 1)
decreasing_by simp_all

/-- A validation request as held by the queue in the heap model: a reference
into the product heap plus the callback.  This model makes the aliasing of the
JavaScript version explicit: the queue holds references to the caller's
Product objects, not copies. -/
structure RequestRef where
  ref : Nat
  callback : Nat
deriving Repr, DecidableEq, Inhabited

/-- Reading a product through a reference into the heap. -/
def heapGet (heap : List Product) (i : Nat) : Product :=
  heap.getD i default

/-- A batch in the heap model: the reference of the (last-written) product and
the callbacks. -/
structure BatchRef where
  ref : Nat
  callbacks : List Nat
deriving Repr, DecidableEq, Inhabited

/-- Lookup of a key in the heap-model grouping object. -/
def findKeyRef (k : String) : List (String × BatchRef) → Option BatchRef
  | [] => none
  | e :: es => if e.1 = k then some e.2 else findKeyRef k es

/-- Grouping loop of the heap model: identical to insertRequest but the
product id is read through the heap. -/
def insertRequestRef (heap : List Product) (acc : List (String × BatchRef))
    (r : RequestRef) : List (String × BatchRef) :=
  let pid := (heapGet heap r.ref).id
  match findKeyRef pid acc with
  | some _ => acc.map fun e =>
      if e.1 = pid then
        (e.1, { ref := r.ref, callbacks := e.2.callbacks ++ [r.callback] })
      else e
  | none => acc ++ [(pid, { ref := r.ref, callbacks := [r.callback] })]

/-- runValidation in the heap model: group the captured requests by product
id, then for each batch normalize the referenced product IN PLACE (the heap
cell is overwritten, no copy is made) and post the mutated product.  Returns
the final heap and the outbound calls. -/
def runValidationHeap (resolver : Product → Option String) (url : String)
    (heap : List Product) (rs : List RequestRef) : List Product × List Call :=
  let groups := (rs.foldl (insertRequestRef heap) [])
  groups.foldl
    (fun acc g =>
      let p := normalizeProduct resolver (heapGet acc.1 g.2.ref)
      (acc.1.set g.2.ref p, acc.2 ++ [⟨url, "POST", p⟩]))
    (heap, [])

/-! Helper lemmas about the grouping association list. -/

theorem accumBatch_nil (o : Option Batch) : accumBatch o [] = o := rfl

theorem accumBatch_cons (o : Option Batch) (r : Request) (fs : List Request) :
    accumBatch o (r :: fs) = accumBatch (some (pushReq o r)) fs := rfl

theorem findKey_map_update (acc : List (String × Batch)) (rid : String)
    (f : Batch → Batch) (k : String) :
    findKey k (acc.map fun e => if e.1 = rid then (e.1, f e.2) else e) =
      if k = rid then (findKey k acc).map f else findKey k acc := by
  induction acc with
  | nil => simp [findKey]
  | cons e es ih =>
    by_cases hkr : k = rid
    · subst hkr
      by_cases h2 : e.1 = k
      · simp [findKey, h2]
      · simp [findKey, h2, ih]
    · by_cases h2 : e.1 = k
      · have h1 : ¬ e.1 = rid := by rw [h2]; exact hkr
        simp [findKey, h1, h2, hkr]
      · have h3 : ¬ rid = k := fun hh => hkr hh.symm
        by_cases h1 : e.1 = rid <;> simp [findKey, h1, h2, h3, hkr, ih]

theorem findKey_append (l1 l2 : List (String × Batch)) (k : String) :
    findKey k (l1 ++ l2) = ((findKey k l1).rec (findKey k l2) fun b => some b) := by
  induction l1 with
  | nil => simp [findKey]
  | cons e es ih =>
    by_cases h : e.1 = k <;> simp [findKey, h, ih]

theorem findKey_insertRequest (acc : List (String × Batch)) (r : Request) (k : String) :
    findKey k (insertRequest acc r) =
      if k = r.product.id then some (pushReq (findKey k acc) r) else findKey k acc := by
  cases hfk : findKey r.product.id acc with
  | some b =>
    simp only [insertRequest, hfk]
    rw [findKey_map_update acc r.product.id
      (fun b => { product := r.product, callbacks := b.callbacks ++ [r.callback] }) k]
    by_cases h : k = r.product.id
    · subst h; simp [hfk, pushReq]
    · simp [h]
  | none =>
    simp only [insertRequest, hfk]
    rw [findKey_append]
    by_cases h : k = r.product.id
    · subst h; simp [hfk, findKey, pushReq]
    · have h2 : ¬ r.product.id = k := fun hh => h hh.symm
      cases hk : findKey k acc <;> simp [findKey, h, h2, hk]

theorem findKey_foldl_insert (rs : List Request) (acc : List (String × Batch)) (k : String) :
    findKey k (rs.foldl insertRequest acc) =
      accumBatch (findKey k acc) (rs.filter fun r => r.product.id == k) := by
  induction rs generalizing acc with
  | nil => simp [accumBatch_nil]
  | cons r rs ih =>
    rw [List.foldl_cons, ih, findKey_insertRequest]
    by_cases h : r.product.id = k
    · subst h
      simp [List.filter_cons, accumBatch_cons]
    · have h2 : ¬ (k = r.product.id) := fun hk => h hk.symm
      simp [List.filter_cons, h, h2]

theorem accumBatch_some (fs : List Request) (b : Batch) :
    accumBatch (some b) fs =
      some { product := (fs.map Request.product).getLastD b.product,
             callbacks := b.callbacks ++ fs.map Request.callback } := by
  induction fs generalizing b with
  | nil => simp [accumBatch_nil]
  | cons f fs ih =>
    rw [accumBatch_cons]
    rw [show pushReq (some b) f =
      { product := f.product, callbacks := b.callbacks ++ [f.callback] } from rfl]
    rw [ih]
    simp only [List.map_cons, List.getLastD_cons, List.append_assoc, List.singleton_append]

theorem accumBatch_none (fs : List Request) (hne : fs ≠ []) :
    accumBatch none fs =
      some { product := (fs.map Request.product).getLastD default,
             callbacks := fs.map Request.callback } := by
  cases fs with
  | nil => exact absurd rfl hne
  | cons f fs =>
    rw [accumBatch_cons]
    rw [show pushReq none f =
      { product := f.product, callbacks := [f.callback] } from rfl]
    rw [accumBatch_some]
    simp only [List.map_cons, List.getLastD_cons, List.singleton_append]

theorem findKey_eq_none_iff (k : String) (l : List (String × Batch)) :
    findKey k l = none ↔ k ∉ l.map Prod.fst := by
  induction l with
  | nil => simp [findKey]
  | cons e es ih =>
    by_cases h : e.1 = k
    · subst h
      simp [findKey]
    · have h2 : ¬ k = e.1 := fun hh => h hh.symm
      simp [findKey, h, h2, ih]

theorem keys_insertRequest (acc : List (String × Batch)) (r : Request) :
    (insertRequest acc r).map Prod.fst =
      match findKey r.product.id acc with
      | some _ => acc.map Prod.fst
      | none => acc.map Prod.fst ++ [r.product.id] := by
  cases hfk : findKey r.product.id acc with
  | some b =>
    simp only [insertRequest, hfk, List.map_map]
    apply List.map_congr_left
    intro e _
    by_cases h : e.1 = r.product.id <;> simp [h]
  | none => simp [insertRequest, hfk]

theorem keys_foldl_nodup (rs : List Request) (acc : List (String × Batch))
    (hnd : (acc.map Prod.fst).Nodup) :
    ((rs.foldl insertRequest acc).map Prod.fst).Nodup := by
  induction rs generalizing acc with
  | nil => exact hnd
  | cons r rs ih =>
    rw [List.foldl_cons]
    apply ih
    rw [keys_insertRequest]
    cases hfk : findKey r.product.id acc with
    | some b => exact hnd
    | none =>
      have hmem : r.product.id ∉ acc.map Prod.fst := (findKey_eq_none_iff _ _).mp hfk
      simp [List.nodup_append, hnd, hmem]

theorem mem_keys_foldl (rs : List Request) (acc : List (String × Batch)) (k : String) :
    k ∈ (rs.foldl insertRequest acc).map Prod.fst ↔
      k ∈ acc.map Prod.fst ∨ k ∈ rs.map fun r => r.product.id := by
  induction rs generalizing acc with
  | nil => simp
  | cons r rs ih =>
    rw [List.foldl_cons, ih, keys_insertRequest]
    cases hfk : findKey r.product.id acc with
    | some b =>
      have hmem : r.product.id ∈ acc.map Prod.fst := by
        by_contra hn
        rw [← findKey_eq_none_iff] at hn
        rw [hfk] at hn
        exact Option.noConfusion hn
      simp only [List.map_cons, List.mem_cons]
      constructor
      · rintro (h | h)
        · exact Or.inl h
        · exact Or.inr (Or.inr h)
      · rintro (h | h | h)
        · exact Or.inl h
        · exact Or.inl (h ▸ hmem)
        · exact Or.inr h
    | none =>
      simp only [List.mem_append, List.mem_singleton, List.map_cons, List.mem_cons]
      tauto

theorem mem_iff_findKey (l : List (String × Batch)) (hnd : (l.map Prod.fst).Nodup)
    (k : String) (b : Batch) :
    (k, b) ∈ l ↔ findKey k l = some b := by
  induction l with
  | nil => simp [findKey]
  | cons e es ih =>
    simp only [List.map_cons, List.nodup_cons] at hnd
    obtain ⟨hne, hnd2⟩ := hnd
    by_cases h : e.1 = k
    · constructor
      · intro hmem
        rcases List.mem_cons.mp hmem with hmem | hmem
        · rw [← hmem]
          simp [findKey]
        · rw [h] at hne
          exact absurd (List.mem_map_of_mem Prod.fst hmem) hne
      · intro hfind
        rw [show findKey k (e :: es) = some e.2 by simp [findKey, h]] at hfind
        obtain ⟨e1, e2⟩ := e
        simp only [Option.some.injEq] at hfind
        simp only at h
        rw [← h, ← hfind]
        exact List.mem_cons_self _ _
    · rw [show findKey k (e :: es) = findKey k es by simp [findKey, h]]
      rw [List.mem_cons, ← ih hnd2]
      constructor
      · rintro (hmem | hmem)
        · exact absurd (congrArg Prod.fst hmem.symm) h
        · exact hmem
      · exact Or.inr

theorem getLastD_mem (l : List Product) (d : Product) (hne : l ≠ []) :
    l.getLastD d ∈ l := by
  induction l generalizing d with
  | nil => exact absurd rfl hne
  | cons a l ih =>
    rw [List.getLastD_cons]
    cases l with
    | nil => simp [List.getLastD]
    | cons b l => exact List.mem_cons_of_mem a (ih b (by simp))

theorem normalizeProduct_id (resolver : Product → Option String) (p : Product) :
    (normalizeProduct resolver p).id = p.id := by
  unfold normalizeProduct ensureAdditionalData
  cases p.additionalData <;> dsimp <;> split <;> dsimp <;> split <;> rfl

theorem findKey_groupRequests (rs : List Request) (k : String) :
    findKey k (groupRequests rs) =
      accumBatch none (rs.filter fun r => r.product.id == k) :=
  findKey_foldl_insert rs [] k

theorem groupRequests_keys_nodup (rs : List Request) :
    ((groupRequests rs).map Prod.fst).Nodup :=
  keys_foldl_nodup rs [] (by simp)

theorem mem_groupRequests_keys (rs : List Request) (k : String) :
    k ∈ (groupRequests rs).map Prod.fst ↔ k ∈ rs.map fun r => r.product.id := by
  rw [groupRequests, mem_keys_foldl]
  simp

theorem groupRequests_entry (rs : List Request) (g : String × Batch)
    (hmem : g ∈ groupRequests rs) :
    findKey g.1 (groupRequests rs) = some g.2 := by
  obtain ⟨k, b⟩ := g
  exact (mem_iff_findKey (groupRequests rs) (groupRequests_keys_nodup rs) k b).mp hmem

theorem groupRequests_batch_id (rs : List Request) (k : String) (b : Batch)
    (hfind : findKey k (groupRequests rs) = some b) : b.product.id = k := by
  rw [findKey_groupRequests] at hfind
  cases hfs : rs.filter (fun r => r.product.id == k) with
  | nil => rw [hfs] at hfind; exact Option.noConfusion hfind
  | cons f fs =>
    rw [hfs, accumBatch_none _ (by simp)] at hfind
    have hb : b.product = ((f :: fs).map Request.product).getLastD default := by
      cases hfind
      rfl
    have hmem : b.product ∈ (f :: fs).map Request.product := by
      rw [hb]
      exact getLastD_mem _ _ (by simp)
    obtain ⟨r, hr, hrp⟩ := List.mem_map.mp hmem
    have hrf : r ∈ rs.filter (fun r => r.product.id == k) := by rw [hfs]; exact hr
    have := List.of_mem_filter hrf
    rw [← hrp]
    exact eq_of_beq this

theorem groupRequests_callbacks (rs : List Request) (k : String) (b : Batch)
    (hfind : findKey k (groupRequests rs) = some b) :
    b.callbacks = (rs.filter fun r => r.product.id == k).map Request.callback := by
  rw [findKey_groupRequests] at hfind
  cases hfs : rs.filter (fun r => r.product.id == k) with
  | nil => rw [hfs] at hfind; exact Option.noConfusion hfind
  | cons f fs =>
    rw [hfs, accumBatch_none _ (by simp)] at hfind
    cases hfind
    rfl

theorem nodup_mem_singleton (l : List String) (x : String) (hnd : l.Nodup)
    (hmem : ∀ y, y ∈ l ↔ y = x) : l = [x] := by
  cases l with
  | nil => exact absurd ((hmem x).mpr rfl) (List.not_mem_nil x)
  | cons a t =>
    have ha : a = x := (hmem a).mp (List.mem_cons_self a t)
    subst ha
    cases t with
    | nil => rfl
    | cons c t2 =>
      have hc : c = a := (hmem c).mp (List.mem_cons_of_mem a (List.mem_cons_self c t2))
      subst hc
      simp at hnd

theorem keys_singleton_decompose (l : List (String × Batch)) (x : String)
    (h : l.map Prod.fst = [x]) : ∃ b, l = [(x, b)] := by
  cases l with
  | nil => simp at h
  | cons e t =>
    simp only [List.map_cons, List.cons.injEq, List.map_eq_nil_iff] at h
    obtain ⟨h1, h2⟩ := h
    subst h2
    exact ⟨e.2, by rw [← h1]⟩

/-- C1: for every burst of N >= 1 validation requests for the same product id
captured in one debounce window, the dispatcher makes exactly one outbound
POST call for that id, the request body is the (normalized) product snapshot
of the most recently queued request for that id (last-write-wins; the
normalization of validator.js lines 150-160 is applied to that same snapshot
in place before posting), and all N callbacks are invoked with one identical
outcome tuple. -/
theorem coalesce_same_id (resolver : Product → Option String) (url : String)
    (transport : Product → TransportResult) (rs : List Request) (tmo : Option Nat)
    (pid : String) (hne : rs ≠ []) (hid : ∀ r ∈ rs, r.product.id = pid) :
    ∃ call outcome,
      (runValidation resolver url transport ⟨rs, tmo⟩).2 =
        [(call, rs.map fun r => (r.callback, outcome))] ∧
      rvCalls (runValidation resolver url transport ⟨rs, tmo⟩) = [call] ∧
      call.method = "POST" ∧ call.url = url ∧
      call.data = normalizeProduct resolver ((rs.map Request.product).getLastD default) ∧
      rvOutcomes (runValidation resolver url transport ⟨rs, tmo⟩) =
        rs.map fun r => (r.callback, outcome) := by
  have hkeys : (groupRequests rs).map Prod.fst = [pid] := by
    apply nodup_mem_singleton _ pid (groupRequests_keys_nodup rs)
    intro y
    rw [mem_groupRequests_keys]
    constructor
    · intro hy
      obtain ⟨r, hr, hry⟩ := List.mem_map.mp hy
      rw [← hry]
      exact hid r hr
    · intro hy
      subst hy
      obtain ⟨r0, hr0⟩ := List.exists_mem_of_ne_nil rs hne
      exact List.mem_map.mpr ⟨r0, hr0, hid r0 hr0⟩
  obtain ⟨b, hgroups⟩ := keys_singleton_decompose _ _ hkeys
  have hfilter : rs.filter (fun r => r.product.id == pid) = rs :=
    List.filter_eq_self.mpr fun r hr => by rw [hid r hr]; exact beq_self_eq_true pid
  have hfind : findKey pid (groupRequests rs) = some b := by
    rw [hgroups]
    simp [findKey]
  rw [findKey_groupRequests, hfilter, accumBatch_none rs hne] at hfind
  have hb : b = { product := (rs.map Request.product).getLastD default,
                  callbacks := rs.map Request.callback } := by
    cases hfind
    rfl
  refine ⟨(dispatchBatch resolver url transport b).1,
    match transport (normalizeProduct resolver b.product) with
    | .success ok data => Outcome.response ok data
    | .failure status message =>
        Outcome.transportError ("Error " ++ toString status ++ ": " ++ message),
    ?_, ?_, ?_, ?_, ?_, ?_⟩
  · show (groupRequests ((captureQueue ⟨rs, tmo⟩).1)).map
        (fun g => dispatchBatch resolver url transport g.2) = _
    rw [show (captureQueue ⟨rs, tmo⟩).1 = rs from rfl, hgroups]
    simp only [List.map_cons, List.map_nil]
    congr 1
    show dispatchBatch resolver url transport b = _
    rw [dispatchBatch]
    congr 1
    rw [hb]
    simp only [List.map_map]
    rfl
  · show ((groupRequests ((captureQueue ⟨rs, tmo⟩).1)).map
        (fun g => dispatchBatch resolver url transport g.2)).map Prod.fst = _
    rw [show (captureQueue ⟨rs, tmo⟩).1 = rs from rfl, hgroups]
    rfl
  · rfl
  · rfl
  · rw [show (dispatchBatch resolver url transport b).1.data =
        normalizeProduct resolver b.product from rfl, hb]
  · show ((((groupRequests ((captureQueue ⟨rs, tmo⟩).1)).map
        (fun g => dispatchBatch resolver url transport g.2)).map Prod.snd)).flatten = _
    rw [show (captureQueue ⟨rs, tmo⟩).1 = rs from rfl, hgroups]
    simp only [List.map_cons, List.map_nil, List.flatten]
    rw [show (dispatchBatch resolver url transport b).2 =
      b.callbacks.map (fun cb => (cb,
        match transport (normalizeProduct resolver b.product) with
        | .success ok data => Outcome.response ok data
        | .failure status message =>
            Outcome.transportError ("Error " ++ toString status ++ ": " ++ message))) from rfl]
    rw [hb]
    simp [List.map_map]

/-- Witness for coalesce_same_id: a concrete burst of two requests for product
id "a" with different snapshots produces one POST whose body is the later
snapshot and both callbacks get the same outcome. -/
theorem coalesce_same_id_witness :
    ([⟨⟨"a", none, "t1"⟩, 1⟩, ⟨⟨"a", none, "t2"⟩, 2⟩] : List Request) ≠ [] ∧
    (∀ r ∈ ([⟨⟨"a", none, "t1"⟩, 1⟩, ⟨⟨"a", none, "t2"⟩, 2⟩] : List Request),
      r.product.id = "a") ∧
    ∃ call outcome,
      (runValidation (fun _ => none) "https://v"
          (fun _ => TransportResult.failure 500 "Internal Error")
          ⟨[⟨⟨"a", none, "t1"⟩, 1⟩, ⟨⟨"a", none, "t2"⟩, 2⟩], some 7⟩).2 =
        [(call, [(1, outcome), (2, outcome)])] ∧
      rvCalls (runValidation (fun _ => none) "https://v"
          (fun _ => TransportResult.failure 500 "Internal Error")
          ⟨[⟨⟨"a", none, "t1"⟩, 1⟩, ⟨⟨"a", none, "t2"⟩, 2⟩], some 7⟩) = [call] ∧
      call.method = "POST" ∧ call.url = "https://v" ∧
      call.data = normalizeProduct (fun _ => none) ⟨"a", none, "t2"⟩ ∧
      rvOutcomes (runValidation (fun _ => none) "https://v"
          (fun _ => TransportResult.failure 500 "Internal Error")
          ⟨[⟨⟨"a", none, "t1"⟩, 1⟩, ⟨⟨"a", none, "t2"⟩, 2⟩], some 7⟩) =
        [(1, outcome), (2, outcome)] :=
  ⟨by decide, by decide,
    coalesce_same_id (fun _ => none) "https://v"
      (fun _ => TransportResult.failure 500 "Internal Error")
      [⟨⟨"a", none, "t1"⟩, 1⟩, ⟨⟨"a", none, "t2"⟩, 2⟩] (some 7) "a"
      (by decide) (by decide)⟩

theorem rvCalls_ids (resolver : Product → Option String) (url : String)
    (transport : Product → TransportResult) (rs : List Request) (tmo : Option Nat) :
    (rvCalls (runValidation resolver url transport ⟨rs, tmo⟩)).map (fun c => c.data.id) =
      (groupRequests rs).map Prod.fst := by
  show (((groupRequests rs).map
      (fun g => dispatchBatch resolver url transport g.2)).map Prod.fst).map
        (fun c => c.data.id) = _
  rw [List.map_map, List.map_map]
  apply List.map_congr_left
  intro g hg
  show (normalizeProduct resolver g.2.product).id = g.1
  rw [normalizeProduct_id]
  exact groupRequests_batch_id rs g.1 g.2 (groupRequests_entry rs g hg)

/-- C2: a captured request sequence with K distinct product ids produces
exactly K outbound POST calls, one per distinct id, and the callbacks of each
call are exactly the callbacks of the requests carrying that call's id, in
arrival order: none dropped, none delivered to another id's batch. -/
theorem coalesce_distinct_ids (resolver : Product → Option String) (url : String)
    (transport : Product → TransportResult) (rs : List Request) (tmo : Option Nat) :
    ((rvCalls (runValidation resolver url transport ⟨rs, tmo⟩)).map fun c => c.data.id).Nodup ∧
    (∀ x, x ∈ (rvCalls (runValidation resolver url transport ⟨rs, tmo⟩)).map (fun c => c.data.id) ↔
          x ∈ rs.map fun r => r.product.id) ∧
    (rvCalls (runValidation resolver url transport ⟨rs, tmo⟩)).length =
      (rs.map fun r => r.product.id).dedup.length ∧
    (∀ c ∈ rvCalls (runValidation resolver url transport ⟨rs, tmo⟩), c.method = "POST") ∧
    ∀ e ∈ (runValidation resolver url transport ⟨rs, tmo⟩).2,
      e.2.map Prod.fst =
        (rs.filter fun r => r.product.id == e.1.data.id).map Request.callback := by
  have hkeys := rvCalls_ids resolver url transport rs tmo
  have hnd : ((rvCalls (runValidation resolver url transport ⟨rs, tmo⟩)).map
      fun c => c.data.id).Nodup := by
    rw [hkeys]; exact groupRequests_keys_nodup rs
  have hmem : ∀ x, x ∈ (rvCalls (runValidation resolver url transport ⟨rs, tmo⟩)).map
      (fun c => c.data.id) ↔ x ∈ rs.map fun r => r.product.id := by
    intro x
    rw [hkeys]
    exact mem_groupRequests_keys rs x
  refine ⟨hnd, hmem, ?_, ?_, ?_⟩
  · have hlen : (rvCalls (runValidation resolver url transport ⟨rs, tmo⟩)).length =
        ((rvCalls (runValidation resolver url transport ⟨rs, tmo⟩)).map
          fun c => c.data.id).length := (List.length_map _ _).symm
    rw [hlen, ← List.toFinset_card_of_nodup hnd, ← List.card_toFinset]
    congr 1
    apply Finset.ext
    intro x
    rw [List.mem_toFinset, List.mem_toFinset]
    exact hmem x
  · intro c hc
    obtain ⟨e, he, hce⟩ := List.mem_map.mp hc
    obtain ⟨g, hg, hge⟩ := List.mem_map.mp he
    rw [← hce, ← hge]
    rfl
  · intro e he
    obtain ⟨g, hg, hge⟩ := List.mem_map.mp he
    have hid : e.1.data.id = g.1 := by
      rw [← hge]
      show (normalizeProduct resolver g.2.product).id = g.1
      rw [normalizeProduct_id]
      exact groupRequests_batch_id rs g.1 g.2 (groupRequests_entry rs g hg)
    have hcb : g.2.callbacks =
        (rs.filter fun r => r.product.id == g.1).map Request.callback :=
      groupRequests_callbacks rs g.1 g.2 (groupRequests_entry rs g hg)
    rw [hid, ← hge]
    show (g.2.callbacks.map fun cb => (cb, _)).map Prod.fst = _
    rw [List.map_map]
    rw [show ((Prod.fst ∘ fun cb => (cb, _)) : Nat → Nat) = id from rfl]
    rw [List.map_id, hcb]

/-- Witness for coalesce_distinct_ids: a concrete three-request burst over the
two ids "a" and "b". -/
theorem coalesce_distinct_ids_witness :
    (∀ x, x ∈ (rvCalls (runValidation (fun _ => none) "https://v"
          (fun _ => TransportResult.success (some true) (some "d"))
          ⟨[⟨⟨"a", none, "t1"⟩, 1⟩, ⟨⟨"b", none, "t2"⟩, 2⟩, ⟨⟨"a", none, "t3"⟩, 3⟩],
            some 7⟩)).map (fun c => c.data.id) ↔
        x ∈ ([⟨⟨"a", none, "t1"⟩, 1⟩, ⟨⟨"b", none, "t2"⟩, 2⟩,
          ⟨⟨"a", none, "t3"⟩, 3⟩] : List Request).map fun r => r.product.id) ∧
    (rvCalls (runValidation (fun _ => none) "https://v"
        (fun _ => TransportResult.success (some true) (some "d"))
        ⟨[⟨⟨"a", none, "t1"⟩, 1⟩, ⟨⟨"b", none, "t2"⟩, 2⟩, ⟨⟨"a", none, "t3"⟩, 3⟩],
          some 7⟩)).length = 2 := by
  have h := coalesce_distinct_ids (fun _ => none) "https://v"
    (fun _ => TransportResult.success (some true) (some "d"))
    [⟨⟨"a", none, "t1"⟩, 1⟩, ⟨⟨"b", none, "t2"⟩, 2⟩, ⟨⟨"a", none, "t3"⟩, 3⟩] (some 7)
  refine ⟨h.2.1, ?_⟩
  rw [h.2.2.1]
  decide

theorem enqueueBurst_requests (evs : List (Nat × Request)) (s : SchedState) :
    (enqueueBurst evs s).validationRequests =
      s.validationRequests ++ evs.map Prod.snd := by
  induction evs generalizing s with
  | nil => simp [enqueueBurst]
  | cons e evs ih =>
    show (enqueueBurst evs (enqueue e.1 e.2 s)).validationRequests = _
    rw [ih]
    simp [enqueue, scheduleValidation]

theorem enqueueBurst_concat_timeout (evs : List (Nat × Request)) (e : Nat × Request)
    (s : SchedState) :
    (enqueueBurst (evs ++ [e]) s).timeout = some (e.1 + 1500) := by
  rw [enqueueBurst, List.foldl_append]
  rfl

/-- C3: every enqueue appends its request to the process-wide queue and
restarts the single 1500 ms debounce timer (the pending deadline, if any, is
discarded and replaced), so after a burst the sole pending deadline is the
last enqueue time plus 1500: the batch can fire only once 1500 ms have
elapsed since the last enqueue, and never at 1500 ms after any earlier
enqueue of the burst. -/
theorem debounce_restart (evs : List (Nat × Request)) (s : SchedState) (hne : evs ≠ []) :
    (enqueueBurst evs s).validationRequests =
      s.validationRequests ++ evs.map Prod.snd ∧
    (enqueueBurst evs s).timeout = some ((evs.getLast hne).1 + 1500) ∧
    (∀ t, canFire t (enqueueBurst evs s) = true ↔ (evs.getLast hne).1 + 1500 ≤ t) ∧
    ∀ e ∈ evs, e.1 < (evs.getLast hne).1 →
      canFire (e.1 + 1500) (enqueueBurst evs s) = false := by
  have htmo : (enqueueBurst evs s).timeout = some ((evs.getLast hne).1 + 1500) := by
    conv_lhs => rw [← List.dropLast_append_getLast hne]
    rw [enqueueBurst_concat_timeout]
  refine ⟨enqueueBurst_requests evs s, htmo, ?_, ?_⟩
  · intro t
    simp [canFire, htmo]
  · intro e he hlt
    simp only [canFire, htmo]
    simp only [decide_eq_false_iff_not, not_le]
    omega

/-- Witness for debounce_restart: two enqueues at 0 ms and 700 ms leave the
queue holding both requests and the only deadline at 2200 ms; firing at
1500 ms (1500 ms after the first enqueue) is impossible. -/
theorem debounce_restart_witness :
    ([((0 : Nat), (⟨⟨"a", none, "t1"⟩, 1⟩ : Request)), (700, ⟨⟨"b", none, "t2"⟩, 2⟩)] :
      List (Nat × Request)) ≠ [] ∧
    (enqueueBurst [(0, ⟨⟨"a", none, "t1"⟩, 1⟩), (700, ⟨⟨"b", none, "t2"⟩, 2⟩)]
        ⟨[], none⟩).validationRequests =
      [] ++ [⟨⟨"a", none, "t1"⟩, 1⟩, ⟨⟨"b", none, "t2"⟩, 2⟩] ∧
    (enqueueBurst [(0, ⟨⟨"a", none, "t1"⟩, 1⟩), (700, ⟨⟨"b", none, "t2"⟩, 2⟩)]
        ⟨[], none⟩).timeout = some 2200 ∧
    canFire 1500 (enqueueBurst [(0, ⟨⟨"a", none, "t1"⟩, 1⟩),
        (700, ⟨⟨"b", none, "t2"⟩, 2⟩)] ⟨[], none⟩) = false ∧
    canFire 2200 (enqueueBurst [(0, ⟨⟨"a", none, "t1"⟩, 1⟩),
        (700, ⟨⟨"b", none, "t2"⟩, 2⟩)] ⟨[], none⟩) = true := by
  have h := debounce_restart
    [(0, ⟨⟨"a", none, "t1"⟩, 1⟩), (700, ⟨⟨"b", none, "t2"⟩, 2⟩)] ⟨[], none⟩
    (by decide)
  refine ⟨by decide, h.1, h.2.1, ?_, ?_⟩
  · exact h.2.2.2 (0, ⟨⟨"a", none, "t1"⟩, 1⟩) (by decide) (by decide)
  · exact (h.2.2.1 2200).mpr (by decide)

/-- C4: when the timer fires, runValidation resets the timer handle to null
and swaps the whole live queue for an empty one before any grouping or
dispatch work; dispatch depends only on the captured requests, so a request
enqueued during the in-flight dispatch lands alone in the fresh queue with a
fresh 1500 ms deadline, is excluded from the captured batch, and the captured
requests plus the fresh queue cover every request exactly once. -/
theorem capture_and_reset (s : SchedState) (t : Nat) (r : Request)
    (resolver : Product → Option String) (url : String)
    (transport : Product → TransportResult) :
    (captureQueue s).1 = s.validationRequests ∧
    (captureQueue s).2.validationRequests = [] ∧
    (captureQueue s).2.timeout = none ∧
    (runValidation resolver url transport s).1 = (captureQueue s).2 ∧
    (runValidation resolver url transport s).2 =
      (groupRequests s.validationRequests).map
        (fun g => dispatchBatch resolver url transport g.2) ∧
    (enqueue t r (captureQueue s).2).validationRequests = [r] ∧
    (enqueue t r (captureQueue s).2).timeout = some (t + 1500) ∧
    (captureQueue s).1 ++ (enqueue t r (captureQueue s).2).validationRequests =
      s.validationRequests ++ [r] :=
  ⟨rfl, rfl, rfl, rfl, rfl, rfl, rfl, rfl⟩

theorem entry_bypass (cfg : StoreConfig) (now : Nat) (p : Product) (cb : Nat)
    (isPrepared : Bool) (s : SchedState) (hfalsy : cfg.validator.falsy = true) :
    store._validator cfg now p cb isPrepared s =
      { callbackCalls := [(true, p)], prepareRuns := 0, delegations := [],
        depth := 1, state := s } := by
  rw [store._validator]
  simp [hfalsy]

/-- C5: with no validator configured (store.validator falsy), the entry point
synchronously invokes callback(true, product) and returns: the scheduler
state (queue and timer) is untouched, no pre-validation step runs and no
function validator is called, hence no request is queued and no outbound
network call can arise from this invocation. -/
theorem bypass_no_validator (cfg : StoreConfig) (now : Nat) (p : Product) (cb : Nat)
    (isPrepared : Bool) (s : SchedState) (hfalsy : cfg.validator.falsy = true) :
    store._validator cfg now p cb isPrepared s =
      { callbackCalls := [(true, p)], prepareRuns := 0, delegations := [],
        depth := 1, state := s } :=
  entry_bypass cfg now p cb isPrepared s hfalsy

/-- Witness for bypass_no_validator on a concrete product. -/
theorem bypass_no_validator_witness :
    StoreValidator.falsy (StoreConfig.mk .noValidator true).validator = true ∧
    store._validator ⟨.noValidator, true⟩ 42 ⟨"a", none, "t"⟩ 5 false ⟨[], none⟩ =
      { callbackCalls := [(true, ⟨"a", none, "t"⟩)], prepareRuns := 0,
        delegations := [], depth := 1, state := ⟨[], none⟩ } :=
  ⟨by decide,
    bypass_no_validator ⟨.noValidator, true⟩ 42 ⟨"a", none, "t"⟩ 5 false ⟨[], none⟩
      (by decide)⟩

theorem entry_prepared (cfg : StoreConfig) (now : Nat) (p : Product) (cb : Nat)
    (s : SchedState) :
    (store._validator cfg now p cb true s).prepareRuns = 0 ∧
    (store._validator cfg now p cb true s).depth = 1 := by
  rw [store._validator]
  simp only [Bool.not_true, Bool.and_false, Bool.false_eq_true, if_false]
  constructor <;> (split <;> first | rfl | (split <;> rfl))

/-- C8: with a validator and a pre-validation step configured, a call with
isPrepared not true runs the pre-step and recurses exactly once with
isPrepared = true; on any input the pre-step runs at most once and the
nesting depth of entry-point activations is at most 2. -/
theorem prepare_runs_once (cfg : StoreConfig) (now : Nat) (p : Product) (cb : Nat)
    (s : SchedState) (hv : cfg.validator.falsy = false) (hp : cfg.hasPrepare = true) :
    (store._validator cfg now p cb false s).prepareRuns = 1 ∧
    (store._validator cfg now p cb false s).depth = 2 ∧
    store._validator cfg now p cb false s =
      { store._validator cfg now p cb true s with
        prepareRuns := (store._validator cfg now p cb true s).prepareRuns + 1,
        depth := (store._validator cfg now p cb true s).depth + 1 } ∧
    ∀ ip : Bool, ∀ cfg2 : StoreConfig,
      (store._validator cfg2 now p cb ip s).prepareRuns ≤ 1 ∧
      (store._validator cfg2 now p cb ip s).depth ≤ 2 := by
  have hrec : store._validator cfg now p cb false s =
      { store._validator cfg now p cb true s with
        prepareRuns := (store._validator cfg now p cb true s).prepareRuns + 1,
        depth := (store._validator cfg now p cb true s).depth + 1 } := by
    conv_lhs => rw [store._validator]
    simp [hv, hp]
  have hinner := entry_prepared cfg now p cb s
  have hbound : ∀ ip : Bool, ∀ cfg2 : StoreConfig,
      (store._validator cfg2 now p cb ip s).prepareRuns ≤ 1 ∧
      (store._validator cfg2 now p cb ip s).depth ≤ 2 := by
    intro ip cfg2
    cases ip with
    | true =>
      have h := entry_prepared cfg2 now p cb s
      rw [h.1, h.2]
      exact ⟨by omega, by omega⟩
    | false =>
      cases hf : cfg2.validator.falsy with
      | true =>
        rw [entry_bypass cfg2 now p cb false s hf]
        exact ⟨by simp, by simp⟩
      | false =>
        cases hp2 : cfg2.hasPrepare with
        | true =>
          have hrec2 : store._validator cfg2 now p cb false s =
              { store._validator cfg2 now p cb true s with
                prepareRuns := (store._validator cfg2 now p cb true s).prepareRuns + 1,
                depth := (store._validator cfg2 now p cb true s).depth + 1 } := by
            conv_lhs => rw [store._validator]
            simp [hf, hp2]
          have h := entry_prepared cfg2 now p cb s
          rw [hrec2]
          simp only [h.1, h.2]
          exact ⟨by omega, by omega⟩
        | false =>
          rw [store._validator]
          simp only [hf, hp2, Bool.false_and, Bool.false_eq_true, if_false]
          constructor <;> (split <;> simp)
  refine ⟨?_, ?_, hrec, hbound⟩
  · rw [hrec]
    simp only [hinner.1]
  · rw [hrec]
    simp only [hinner.2]

/-- Witness for prepare_runs_once: a string validator with a configured
pre-step, called with isPrepared = false. -/
theorem prepare_runs_once_witness :
    StoreValidator.falsy (StoreConfig.mk (.url "https://v") true).validator = false ∧
    (StoreConfig.mk (.url "https://v") true).hasPrepare = true ∧
    (store._validator ⟨.url "https://v", true⟩ 0 ⟨"a", none, "t"⟩ 5 false
      ⟨[], none⟩).prepareRuns = 1 ∧
    (store._validator ⟨.url "https://v", true⟩ 0 ⟨"a", none, "t"⟩ 5 false
      ⟨[], none⟩).depth = 2 := by
  have h := prepare_runs_once ⟨.url "https://v", true⟩ 0 ⟨"a", none, "t"⟩ 5
    ⟨[], none⟩ (by decide) (by decide)
  exact ⟨by decide, by decide, h.1, h.2.1⟩

theorem normalizeProduct_eq (resolver : Product → Option String) (p : Product) :
    normalizeProduct resolver p =
      if usernameFalsy
          (((ensureAdditionalData p).additionalData.getD default).applicationUsername) then
        if usernameFalsy (resolver (ensureAdditionalData p)) then
          { ensureAdditionalData p with additionalData := some (AdditionalData.mk none
              ((ensureAdditionalData p).additionalData.getD default).rest) }
        else
          { ensureAdditionalData p with additionalData := some (AdditionalData.mk
              (resolver (ensureAdditionalData p))
              ((ensureAdditionalData p).additionalData.getD default).rest) }
      else ensureAdditionalData p := by
  cases h1 : usernameFalsy
      (((ensureAdditionalData p).additionalData.getD default).applicationUsername) with
  | true =>
    cases h2 : usernameFalsy (resolver (ensureAdditionalData p)) with
    | true => simp [normalizeProduct, h1, h2]
    | false => simp [normalizeProduct, h1, h2]
  | false => simp [normalizeProduct, h1]

theorem ensureAdditionalData_some (p : Product) :
    (ensureAdditionalData p).additionalData =
      some ((ensureAdditionalData p).additionalData.getD default) := by
  cases hp : p.additionalData <;> simp [ensureAdditionalData, hp]

/-- C6: before each batch's outbound call, additionalData is created as an
empty mapping if absent; if applicationUsername is falsy it is resolved via
the injected resolver; if resolution still yields something falsy the key is
deleted, so the posted product never carries a falsy applicationUsername key,
and it carries the resolver's value whenever the resolver returns a non-empty
string; when applicationUsername was already non-falsy the product is posted
unchanged (beyond the additionalData creation). -/
theorem applicationUsername_normalized (resolver : Product → Option String) (p : Product) :
    ∃ ad : AdditionalData,
      (normalizeProduct resolver p).additionalData = some ad ∧
      ad.rest = ((ensureAdditionalData p).additionalData.getD default).rest ∧
      (ad.applicationUsername = none ∨
        ∃ u, ad.applicationUsername = some u ∧ u ≠ "") ∧
      (p.additionalData = none →
        (ensureAdditionalData p).additionalData =
          some { applicationUsername := none, rest := [] }) ∧
      (usernameFalsy
          (((ensureAdditionalData p).additionalData.getD default).applicationUsername) =
        true →
        (usernameFalsy (resolver (ensureAdditionalData p)) = true →
          ad.applicationUsername = none) ∧
        ∀ u, resolver (ensureAdditionalData p) = some u → u ≠ "" →
          ad.applicationUsername = some u) ∧
      (usernameFalsy
          (((ensureAdditionalData p).additionalData.getD default).applicationUsername) =
        false →
        normalizeProduct resolver p = ensureAdditionalData p) := by
  have hcreate : p.additionalData = none →
      (ensureAdditionalData p).additionalData =
        some { applicationUsername := none, rest := [] } := by
    intro hn
    unfold ensureAdditionalData
    rw [hn]
  cases h1 : usernameFalsy
      (((ensureAdditionalData p).additionalData.getD default).applicationUsername) with
  | true =>
    cases h2 : usernameFalsy (resolver (ensureAdditionalData p)) with
    | true =>
      refine ⟨AdditionalData.mk none
          ((ensureAdditionalData p).additionalData.getD default).rest, ?_, rfl,
        Or.inl rfl, hcreate, ?_, ?_⟩
      · rw [normalizeProduct_eq, h1, h2]
        rfl
      · intro _
        refine ⟨fun _ => rfl, ?_⟩
        intro u hu hne
        rw [hu] at h2
        simp [usernameFalsy] at h2
        exact absurd h2 hne
      · intro hfalse
        exact Bool.noConfusion hfalse
    | false =>
      refine ⟨AdditionalData.mk (resolver (ensureAdditionalData p))
          ((ensureAdditionalData p).additionalData.getD default).rest, ?_, rfl, ?_,
        hcreate, ?_, ?_⟩
      · rw [normalizeProduct_eq, h1, h2]
        rfl
      · right
        cases hres : resolver (ensureAdditionalData p) with
        | none => rw [hres] at h2; simp [usernameFalsy] at h2
        | some u =>
          refine ⟨u, rfl, ?_⟩
          rw [hres] at h2
          simp [usernameFalsy] at h2
          exact h2
      · intro _
        refine ⟨?_, ?_⟩
        · intro hf
          exact Bool.noConfusion hf
        · intro u hu _
          rw [hu]
      · intro hfalse
        exact Bool.noConfusion hfalse
  | false =>
    refine ⟨(ensureAdditionalData p).additionalData.getD default, ?_, rfl, ?_,
      hcreate, ?_, ?_⟩
    · rw [normalizeProduct_eq, h1]
      simp only [Bool.false_eq_true, if_false]
      exact ensureAdditionalData_some p
    · cases hau : ((ensureAdditionalData p).additionalData.getD default).applicationUsername with
      | none => rw [hau] at h1; simp [usernameFalsy] at h1
      | some u =>
        right
        refine ⟨u, rfl, ?_⟩
        rw [hau] at h1
        simp [usernameFalsy] at h1
        exact h1
    · intro htrue
      exact Bool.noConfusion htrue
    · intro _
      rw [normalizeProduct_eq, h1]
      simp

/-- Witness for applicationUsername_normalized: a product without
additionalData and a resolver returning "joe"; the posted product carries
applicationUsername = "joe". -/
theorem applicationUsername_normalized_witness :
    (∃ ad : AdditionalData,
      (normalizeProduct (fun _ => some "joe") ⟨"a", none, "t"⟩).additionalData = some ad ∧
      ad.rest =
        ((ensureAdditionalData ⟨"a", none, "t"⟩).additionalData.getD default).rest ∧
      (ad.applicationUsername = none ∨
        ∃ u, ad.applicationUsername = some u ∧ u ≠ "") ∧
      ((⟨"a", none, "t"⟩ : Product).additionalData = none →
        (ensureAdditionalData ⟨"a", none, "t"⟩).additionalData =
          some { applicationUsername := none, rest := [] }) ∧
      (usernameFalsy
          (((ensureAdditionalData ⟨"a", none, "t"⟩).additionalData.getD
            default).applicationUsername) = true →
        (usernameFalsy ((fun (_ : Product) => some "joe") (ensureAdditionalData
            ⟨"a", none, "t"⟩)) = true → ad.applicationUsername = none) ∧
        ∀ u, (fun (_ : Product) => some "joe") (ensureAdditionalData ⟨"a", none, "t"⟩) =
            some u → u ≠ "" → ad.applicationUsername = some u) ∧
      (usernameFalsy
          (((ensureAdditionalData ⟨"a", none, "t"⟩).additionalData.getD
            default).applicationUsername) = false →
        normalizeProduct (fun _ => some "joe") ⟨"a", none, "t"⟩ =
          ensureAdditionalData ⟨"a", none, "t"⟩)) ∧
    normalizeProduct (fun _ => some "joe") ⟨"a", none, "t"⟩ =
      ⟨"a", some ⟨some "joe", []⟩, "t"⟩ :=
  ⟨applicationUsername_normalized (fun _ => some "joe") ⟨"a", none, "t"⟩, by decide⟩

/-- C7: when the transport for a batch's outbound call fails with status S
and message M, every callback of that batch is invoked with first argument
false and second argument the string "Error S: M". -/
theorem transport_failure_fanout (resolver : Product → Option String) (url : String)
    (transport : Product → TransportResult) (s : SchedState) (status : Nat)
    (message : String) :
    ∀ e ∈ (runValidation resolver url transport s).2,
      transport e.1.data = .failure status message →
      ∀ c ∈ e.2, c.2 = Outcome.transportError
          ("Error " ++ toString status ++ ": " ++ message) ∧
        Outcome.firstArg c.2 = some false := by
  intro e he hfail c hc
  obtain ⟨g, _, hge⟩ := List.mem_map.mp he
  have hdata : e.1.data = normalizeProduct resolver g.2.product := by rw [← hge]; rfl
  rw [hdata] at hfail
  have he2 : e.2 = g.2.callbacks.map fun cb => (cb, Outcome.transportError
      ("Error " ++ toString status ++ ": " ++ message)) := by
    rw [← hge]
    show (dispatchBatch resolver url transport g.2).2 = _
    rw [dispatchBatch]
    rw [hfail]
  rw [he2] at hc
  obtain ⟨cb, _, hcb⟩ := List.mem_map.mp hc
  rw [← hcb]
  exact ⟨rfl, rfl⟩

/-- Witness for transport_failure_fanout: status 500 with message
"Internal Error" delivers (false, "Error 500: Internal Error") to the queued
callback. -/
theorem transport_failure_fanout_witness :
    ((⟨⟨"https://v", "POST", ⟨"a", some ⟨none, []⟩, "t"⟩⟩,
        [(1, Outcome.transportError "Error 500: Internal Error")]⟩ :
      Call × List (Nat × Outcome)) ∈
      (runValidation (fun _ => none) "https://v"
        (fun _ => TransportResult.failure 500 "Internal Error")
        ⟨[⟨⟨"a", none, "t"⟩, 1⟩], some 7⟩).2) ∧
    ((1, Outcome.transportError "Error 500: Internal Error") : Nat × Outcome).2 =
      Outcome.transportError ("Error " ++ toString 500 ++ ": " ++ "Internal Error") ∧
    Outcome.firstArg
      ((1, Outcome.transportError "Error 500: Internal Error") : Nat × Outcome).2 =
      some false :=
  ⟨by decide,
    transport_failure_fanout (fun _ => none) "https://v"
      (fun _ => TransportResult.failure 500 "Internal Error")
      ⟨[⟨⟨"a", none, "t"⟩, 1⟩], some 7⟩ 500 "Internal Error"
      ⟨⟨"https://v", "POST", ⟨"a", some ⟨none, []⟩, "t"⟩⟩,
        [(1, Outcome.transportError "Error 500: Internal Error")]⟩
      (by decide) (by decide)
      (1, Outcome.transportError "Error 500: Internal Error") (by decide)⟩

/-- C9: on a transport-level success response, every callback of the batch is
invoked with the response body's ok field as first argument and its data
field as second argument, passed through as-is with no malformed-body
handling; a missing ok field (none) is delivered as a falsy first
argument. -/
theorem transport_success_fanout (resolver : Product → Option String) (url : String)
    (transport : Product → TransportResult) (s : SchedState) (ok : Option Bool)
    (data : Option String) :
    ∀ e ∈ (runValidation resolver url transport s).2,
      transport e.1.data = .success ok data →
      ∀ c ∈ e.2, c.2 = Outcome.response ok data ∧
        Outcome.firstArg c.2 = ok ∧
        (ok = none → argTruthy (Outcome.firstArg c.2) = false) := by
  intro e he hsucc c hc
  obtain ⟨g, _, hge⟩ := List.mem_map.mp he
  have hdata : e.1.data = normalizeProduct resolver g.2.product := by rw [← hge]; rfl
  rw [hdata] at hsucc
  have he2 : e.2 = g.2.callbacks.map fun cb => (cb, Outcome.response ok data) := by
    rw [← hge]
    show (dispatchBatch resolver url transport g.2).2 = _
    rw [dispatchBatch]
    rw [hsucc]
  rw [he2] at hc
  obtain ⟨cb, _, hcb⟩ := List.mem_map.mp hc
  rw [← hcb]
  refine ⟨rfl, rfl, ?_⟩
  intro hnone
  rw [hnone]
  rfl

/-- Witness for transport_success_fanout: a response body with no ok field
is passed through and its first argument is falsy. -/
theorem transport_success_fanout_witness :
    ((⟨⟨"https://v", "POST", ⟨"a", some ⟨none, []⟩, "t"⟩⟩,
        [(1, Outcome.response none (some "d"))]⟩ :
      Call × List (Nat × Outcome)) ∈
      (runValidation (fun _ => none) "https://v"
        (fun _ => TransportResult.success none (some "d"))
        ⟨[⟨⟨"a", none, "t"⟩, 1⟩], some 7⟩).2) ∧
    ((1, Outcome.response none (some "d")) : Nat × Outcome).2 =
      Outcome.response none (some "d") ∧
    Outcome.firstArg ((1, Outcome.response none (some "d")) : Nat × Outcome).2 =
      none ∧
    (none = (none : Option Bool) →
      argTruthy (Outcome.firstArg
        ((1, Outcome.response none (some "d")) : Nat × Outcome).2) = false) :=
  ⟨by decide,
    transport_success_fanout (fun _ => none) "https://v"
      (fun _ => TransportResult.success none (some "d"))
      ⟨[⟨⟨"a", none, "t"⟩, 1⟩], some 7⟩ none (some "d")
      ⟨⟨"https://v", "POST", ⟨"a", some ⟨none, []⟩, "t"⟩⟩,
        [(1, Outcome.response none (some "d"))]⟩
      (by decide) (by decide)
      (1, Outcome.response none (some "d")) (by decide)⟩

/-- C10: the applicationUsername normalization writes through the reference
held by the queued request — the dispatcher overwrites the heap cell of the
caller's Product rather than working on a copy — so after the batch fires,
reading the product through the reference the caller passed to validate
yields the normalized product (and only the referenced cell changed). -/
theorem normalization_mutates_in_place (resolver : Product → Option String)
    (url : String) (heap : List Product) (i : Nat) (cb : Nat)
    (hi : i < heap.length) :
    (runValidationHeap resolver url heap [⟨i, cb⟩]).1 =
      heap.set i (normalizeProduct resolver (heapGet heap i)) ∧
    heapGet (runValidationHeap resolver url heap [⟨i, cb⟩]).1 i =
      normalizeProduct resolver (heapGet heap i) ∧
    (∀ j, j ≠ i → heapGet (runValidationHeap resolver url heap [⟨i, cb⟩]).1 j =
      heapGet heap j) ∧
    (runValidationHeap resolver url heap [⟨i, cb⟩]).2 =
      [⟨url, "POST", normalizeProduct resolver (heapGet heap i)⟩] := by
  refine ⟨rfl, ?_, ?_, rfl⟩
  · show (heap.set i (normalizeProduct resolver (heapGet heap i))).getD i default = _
    rw [List.getD_eq_getElem?_getD, List.getElem?_set_eq_of_lt _ hi, Option.getD_some]
  · intro j hj
    show (heap.set i (normalizeProduct resolver (heapGet heap i))).getD j default =
      heap.getD j default
    rw [List.getD_eq_getElem?_getD, List.getElem?_set_ne (fun h => hj h.symm),
      List.getD_eq_getElem?_getD]

/-- Witness for normalization_mutates_in_place: after the batch fires, the
caller's reference 0 reads the mutated product, whose additionalData was
created and populated in place. -/
theorem normalization_mutates_in_place_witness :
    (0 : Nat) < ([⟨"a", none, "t"⟩] : List Product).length ∧
    heapGet (runValidationHeap (fun _ => some "joe") "https://v"
      [⟨"a", none, "t"⟩] [⟨0, 1⟩]).1 0 =
      normalizeProduct (fun _ => some "joe") (heapGet [⟨"a", none, "t"⟩] 0) ∧
    heapGet (runValidationHeap (fun _ => some "joe") "https://v"
      [⟨"a", none, "t"⟩] [⟨0, 1⟩]).1 0 = ⟨"a", some ⟨some "joe", []⟩, "t"⟩ :=
  ⟨by decide,
    (normalization_mutates_in_place (fun _ => some "joe") "https://v"
      [⟨"a", none, "t"⟩] 0 1 (by decide)).2.1,
    by decide⟩
